import Mathlib

/-!
Verification of the event-dispatch core of the anjani repository
(src/anjani/core/event_dispatcher.py), as a shallow embedding:

* the listener registry (register_listener, unregister_listener,
  unregister_listeners) with its ordered-insert semantics;
* the dispatch loop (filter evaluation with the first-match tie-break for
  callback_query / inline_query events, scheduling of listener tasks);
* the failure isolator (_event_dispatcher_callback): cancellation on the
  cooperative StopPropagation signal, error reporting for other errors;
* the reconciliation loop (dispatch_missed_events) over the persisted
  session cursor and the GetDifference protocol.

Python dictionaries are modelled as association lists with unique keys in
insertion order; Python lists as Lean lists mutated by explicit state
passing; callbacks, plugins and filter predicates are identified by numeric
handles, filter evaluation being delegated to an explicit environment.
Fallible operations (KeyError / ValueError paths) return Option.
-/

namespace Anjani

/-- Identifier of a filter predicate attached to a listener; the registry
stores the filter only as an opaque handle, evaluation is delegated to an
environment (see FEnv below). -/
abbrev FilterId := Nat

/-- Listener record as constructed by register_listener: event name,
callback handle (func), owning plugin handle, priority, optional filter. -/
structure Listener where
  event : String
  func : Nat
  plugin : Nat
  priority : Int
  filters : Option FilterId
deriving DecidableEq, Repr

/-- Modelled from the spec: the Listener class itself (anjani/listener.py,
not among the sources; only its use sites are) supplies the comparison used
by bisect.insort.  The spec states listeners order by
(priority, insertion sequence) ascending with equal priorities keeping
registration order, so the comparison underlying the ordered insert is on
priority alone, insertion going to the right of equal elements. -/
def Listener.lt (a b : Listener) : Bool :=
  a.priority < b.priority

/-- Ordered insert modelling bisect.insort (insort_right): x is inserted
immediately before the first element y with x < y, hence after every
element whose priority is less than or equal to x's. -/
def insort (x : Listener) : List Listener → List Listener
  | [] => [x]
  | y :: ys => if Listener.lt x y then x :: y :: ys else y :: insort x ys

/-- Registry: the self.listeners mapping of EventDispatcher, event name to
ordered listener sequence, modelled as an association list with unique keys
in insertion order (Python dict semantics). -/
abbrev Registry := List (String × List Listener)

/-- Dictionary lookup: self.listeners.get(event). -/
def lookupEvent : Registry → String → Option (List Listener)
  | [], _ => none
  | p :: ps, e => if p.1 == e then some p.2 else lookupEvent ps e

/-- Dictionary store to an existing or new key:
self.listeners[event] = l (replaces in place, or appends a new key). -/
def setEvent : Registry → String → List Listener → Registry
  | [], e, l => [(e, l)]
  | p :: ps, e, l => if p.1 == e then (e, l) :: ps else p :: setEvent ps e l

/-- Dictionary deletion: del self.listeners[event]. -/
def eraseEvent : Registry → String → Registry
  | [], _ => []
  | p :: ps, e => if p.1 == e then ps else p :: eraseEvent ps e

/-- Reserved lifecycle event names on which filters are disallowed
(register_listener drops the filter with a warning). -/
def reservedEvents : List String :=
  ["load", "start", "started", "stop", "stopped"]

/-- register_listener: constructs the Listener (dropping the filter on
reserved lifecycle events; the _cmd_filters check is log-only) and
ordered-inserts it into the event's sequence, creating the sequence when
the event key is absent.  update_plugin_events is a pure projection of the
registry (per the spec) and carries no state of its own, so it is omitted. -/
def register_listener (reg : Registry) (plug : Nat) (event : String) (func : Nat)
    (priority : Int) (filters : Option FilterId) : Registry :=
  let filters := if reservedEvents.contains event then none else filters
  let listener : Listener := ⟨event, func, plug, priority, filters⟩
  match lookupEvent reg event with
  | some l => setEvent reg event (insort listener l)
  | none => reg ++ [(event, [listener])]

/-- Python list.remove: removes the first occurrence equal to x, none when
absent (ValueError). -/
def removeFirst (x : Listener) : List Listener → Option (List Listener)
  | [] => none
  | y :: ys => if y = x then some ys else (removeFirst x ys).map (fun l => y :: l)

/-- unregister_listener: removes the exact record from its event's
sequence, deletes the event key once the sequence is empty; none models the
KeyError (event absent) and ValueError (listener absent) exits. -/
def unregister_listener (reg : Registry) (x : Listener) : Option Registry :=
  match lookupEvent reg x.event with
  | none => none
  | some l =>
    match removeFirst x l with
    | none => none
    | some l2 =>
      some (if l2.isEmpty then eraseEvent reg x.event else setEvent reg x.event l2)

/-- One inner for-loop of unregister_listeners over a single event's
sequence.  In the source the loop iterates a list object aliased with the
registry entry while unregister_listener removes from that same object, so
the iterator advances by bare index: after a removal the remainder shifts
left and the element after the removed one is visited at the old index
plus one.  live is the list the iterator holds (kept in sync with the
registry entry, which register_listener guarantees shares the event key);
i the iterator index.  The fuel argument only bounds recursion and never
runs out when it starts at live.length + 1, since i grows every step while
live never grows. -/
def scanEvent (plug : Nat) : Nat → Registry → List Listener → Nat → Option Registry
  | 0, reg, _, _ => some reg
  | fuel + 1, reg, live, i =>
    match live.get? i with
    | none => some reg
    | some x =>
      if x.plugin == plug then
        match unregister_listener reg x with
        | none => none
        | some reg2 => scanEvent plug fuel reg2 ((removeFirst x live).getD live) (i + 1)
      else
        scanEvent plug fuel reg live (i + 1)

/-- Outer loop of unregister_listeners over the snapshot
list(self.listeners.values()). -/
def unregLoop (plug : Nat) : List (List Listener) → Registry → Option Registry
  | [], reg => some reg
  | live :: rest, reg =>
    match scanEvent plug (live.length + 1) reg live 0 with
    | none => none
    | some reg2 => unregLoop plug rest reg2

/-- unregister_listeners: iterates a snapshot of the value lists (the dict
itself is copied by list(...), the inner lists are aliased) and
unregisters every listener whose plugin matches. -/
def unregister_listeners (plug : Nat) (reg : Registry) : Option Registry :=
  unregLoop plug (reg.map Prod.snd) reg

/-- Event payload as passed in *args of dispatch_event.  The three rich
event types (Message, CallbackQuery, InlineQuery) carry the mutable
matches attribute that pyrogram filters may assign; any other argument is
an opaque payload. -/
inductive Arg
  | message (matchAttr : Option Nat) (payload : Nat)
  | callbackQuery (matchAttr : Option Nat) (payload : Nat)
  | inlineQuery (matchAttr : Option Nat) (payload : Nat)
  | other (payload : Nat)
deriving DecidableEq, Repr

/-- isinstance(arg, EventType). -/
def Arg.isRich : Arg → Bool
  | .message _ _ => true
  | .callbackQuery _ _ => true
  | .inlineQuery _ _ => true
  | .other _ => false

/-- The arg.matches attribute (only read on rich events in the source). -/
def Arg.matchAttr : Arg → Option Nat
  | .message m _ => m
  | .callbackQuery m _ => m
  | .inlineQuery m _ => m
  | .other _ => none

/-- Filter environment: interprets a filter handle on a payload.  A filter
call await lst.filters(self.client, arg) returns a truth value and may
mutate the payload object (pyrogram filters assign arg.matches), so it is
modelled as returning the updated payload alongside the result. -/
abbrev FEnv := FilterId → Arg → Bool × Arg

/-- Result of the inner for-loop over args for one filtered listener:
the (possibly mutated) args, the match_found flag, the callbacks whose
filter was actually evaluated (one entry per evaluation, in order), and
whether the loop ended in break (listener gets scheduled) rather than
falling through to the for-else continue (listener skipped). -/
structure ScanResult where
  args : List Arg
  mf : Bool
  evals : List Nat
  sched : Bool
deriving DecidableEq, Repr

/-- The inner for arg in args loop of dispatch_event for one listener with
a filter: non-rich args are logged and skipped; on a rich arg, if
match_found is set and the event is callback_query or inline_query the arg
is skipped (continue); otherwise the filter runs, a false result moves on
to the next arg, a true result sets match_found when arg.matches is
non-None afterwards and breaks, scheduling the listener. -/
def filterScan (fenv : FEnv) (event : String) (fid : FilterId) (func : Nat) :
    List Arg → Bool → ScanResult
  | [], mf => ⟨[], mf, [], false⟩
  | a :: rest, mf =>
    if a.isRich then
      if mf && (event == "callback_query" || event == "inline_query") then
        let r := filterScan fenv event fid func rest mf
        ⟨a :: r.args, r.mf, r.evals, r.sched⟩
      else
        let p := fenv fid a
        if p.1 then
          ⟨p.2 :: rest, if (p.2).matchAttr.isSome then true else mf, [func], true⟩
        else
          let r := filterScan fenv event fid func rest mf
          ⟨p.2 :: r.args, r.mf, func :: r.evals, r.sched⟩
    else
      let r := filterScan fenv event fid func rest mf
      ⟨a :: r.args, r.mf, r.evals, r.sched⟩

/-- State threaded through the listener loop of one dispatch_event call:
the shared args, the call-wide match_found flag (reset at the start of
every call), the log of filter evaluations, and the callbacks scheduled as
tasks, in scheduling order. -/
structure DispatchState where
  args : List Arg
  mf : Bool
  evals : List Nat
  scheduled : List Nat
deriving DecidableEq, Repr

/-- One iteration of the listener loop: a listener without a filter is
scheduled unconditionally; a filtered listener runs the inner arg loop and
is scheduled only when that loop ended in break. -/
def stepListener (fenv : FEnv) (event : String) (st : DispatchState) (l : Listener) :
    DispatchState :=
  match l.filters with
  | none => { st with scheduled := st.scheduled ++ [l.func] }
  | some fid =>
    let r := filterScan fenv event fid l.func st.args st.mf
    { args := r.args, mf := r.mf, evals := st.evals ++ r.evals,
      scheduled := if r.sched then st.scheduled ++ [l.func] else st.scheduled }

/-- The listener loop of dispatch_event. -/
def dispatchLoop (fenv : FEnv) (event : String) : List Listener → DispatchState → DispatchState
  | [], st => st
  | l :: ls, st => dispatchLoop fenv event ls (stepListener fenv event st l)

/-- Filter-evaluation and scheduling phase of dispatch_event: looks up the
event (a missing or empty entry is a no-op) and folds the listener loop
from a fresh state with match_found unset. -/
def dispatchEventPlan (fenv : FEnv) (reg : Registry) (event : String) (args : List Arg) :
    DispatchState :=
  match lookupEvent reg event with
  | none => ⟨args, false, [], []⟩
  | some ls =>
    if ls.isEmpty then ⟨args, false, [], []⟩
    else dispatchLoop fenv event ls ⟨args, false, [], []⟩

/-- Outcome a listener body produces if it runs to completion: normal
return, the cooperative StopPropagation signal, or a generic error. -/
inductive Outcome
  | ok
  | stopProp
  | err (code : Nat)
deriving DecidableEq, Repr

/-- Status of a scheduled task on the loop.  cancelling is a running task
on which cancel() has been called: its body will not complete and it will
finish as doneCancelled. -/
inductive TStatus
  | running
  | cancelling
  | doneOk
  | doneCancelled
  | doneStop
  | doneErr (code : Nat)
deriving DecidableEq, Repr

/-- A task on the event loop as created by dispatch_event:
self.loop.create_task(lst.func(...), name=event) — the task name is the
event string.  callId is a ghost field recording which dispatch call
created the task; the source never stores or inspects it. -/
structure ATask where
  tid : Nat
  name : String
  callId : Nat
  beh : Outcome
  status : TStatus
deriving DecidableEq, Repr

/-- task.cancel(): requests cancellation of a running task; a no-op on a
task that already completed. -/
def ATask.cancelTask (t : ATask) : ATask :=
  match t.status with
  | .running => { t with status := .cancelling }
  | _ => t

/-- The StopPropagation branch of _event_dispatcher_callback:
for task in asyncio.all_tasks(): if task.get_name() == name: task.cancel().
The pool is the global task set; the selector is the task NAME, which
dispatch_event sets to the event string. -/
def cancelByName (pool : List ATask) (name : String) : List ATask :=
  pool.map (fun t => if t.name == name then t.cancelTask else t)

/-- Status a task reaches when its body runs to completion with the given
outcome (the outcome is stored in the task's future). -/
def doneOf : Outcome → TStatus
  | .ok => .doneOk
  | .stopProp => .doneStop
  | .err e => .doneErr e

/-- State of a run of scheduled tasks: the global pool, the number of error
reports emitted by the isolator (dispatch_alert plus structured log), and
the tids whose bodies ran to completion, in completion order. -/
structure RunState where
  pool : List ATask
  reports : Nat
  completed : List Nat
deriving DecidableEq, Repr

/-- Sets the status of the task with the given tid. -/
def setStatus (pool : List ATask) (tid : Nat) (s : TStatus) : List ATask :=
  pool.map (fun t => if t.tid == tid then { t with status := s } else t)

/-- One completion event of the cooperative loop: the task with the given
tid reaches its end.  A running task completes with its body's outcome and
its done-callback (_event_dispatcher_callback) fires: a CancelledError
from the future returns immediately, StopPropagation cancels every task
sharing the task name, any other error is reported; nothing is re-raised.
A task cancelled while running finishes as doneCancelled and its callback
sees CancelledError, a no-op. -/
def completeStep (st : RunState) (tid : Nat) : RunState :=
  match st.pool.find? (fun t => t.tid == tid) with
  | none => st
  | some t =>
    match t.status with
    | .running =>
      let pool1 := setStatus st.pool tid (doneOf t.beh)
      match t.beh with
      | .ok => ⟨pool1, st.reports, st.completed ++ [tid]⟩
      | .stopProp => ⟨cancelByName pool1 t.name, st.reports, st.completed ++ [tid]⟩
      | .err _ => ⟨pool1, st.reports + 1, st.completed ++ [tid]⟩
    | .cancelling => ⟨setStatus st.pool tid .doneCancelled, st.reports, st.completed⟩
    | _ => st

/-- Runs the pool to quiescence along the given completion order (one
interleaving of the cooperative scheduler). -/
def runAll (pool : List ATask) (order : List Nat) : RunState :=
  (order.foldl completeStep ⟨pool, 0, []⟩ : RunState)

/-- Task creation for the scheduled listeners of one dispatch call: each
task is named with the event string and tagged (ghost) with the call
identity; behOf gives each listener body's eventual outcome. -/
def scheduleTasks (event : String) (callId : Nat) (funcs : List Nat)
    (behOf : Nat → Outcome) : List ATask :=
  (funcs.enum).map (fun p => ⟨p.1, event, callId, behOf p.2, .running⟩)

/-- dispatch_event with wait=true, composed end to end: plan the call,
create the tasks, run every task to quiescence in the given completion
order, and return to the caller.  The Except value models the await site:
asyncio.wait never re-raises a task's stored exception and the
done-callbacks run on the loop outside dispatch_event's frame, so the
normal return Except.ok () is the only exit of this composition. -/
def dispatchRunWait (fenv : FEnv) (reg : Registry) (event : String) (args : List Arg)
    (callId : Nat) (behOf : Nat → Outcome) (order : List Nat) :
    RunState × Except String Unit :=
  let plan := dispatchEventPlan fenv reg event args
  let tasks := scheduleTasks event callId plan.scheduled behOf
  (runAll tasks order, Except.ok ())

/-- One response of the upstream GetDifference call, or a transport-level
event at that await point (OSError, or external cancellation). -/
inductive DiffResponse
  | difference (newMessages otherUpdates : List Nat) (statePts stateDate : Int)
  | differenceSlice (newMessages otherUpdates : List Nat) (statePts stateDate : Int)
  | differenceEmpty (date : Int)
  | differenceTooLong (pts : Int)
  | otherKind
  | ioFailure
  | cancelledInvoke
deriving DecidableEq, Repr

/-- An item pushed to the live ingress queue
(self.client.dispatcher.updates_queue): a missed message wrapped as
UpdateNewMessage with pts=0 and pts_count=0, or a raw missed update. -/
inductive QItem
  | newMessage (m : Nat)
  | rawUpdate (u : Nat)
deriving DecidableEq, Repr

/-- How the while-loop of dispatch_missed_events ended: a break (finished)
or a caught OSError / CancelledError (failed).  Both fall into the same
finally block. -/
inductive LoopExit
  | finished
  | failed
deriving DecidableEq, Repr

/-- Result of the reconciliation loop: how it exited, everything pushed to
the live ingress queue, how many GetDifference requests were made, and the
local pts / date variables at exit (dead stores once the finally block
unsets the persisted record). -/
structure LoopResult where
  exit : LoopExit
  pushed : List QItem
  invokes : Nat
  finalPts : Int
  finalDate : Int
deriving DecidableEq, Repr

/-- The while True loop of dispatch_missed_events.  The script is the
sequence of upstream responses, one consumed per GetDifference invoke; an
exhausted script stands for a transport that never answers again and is
treated as the ioFailure exit.  For a Difference / DifferenceSlice page
the two replay coroutines (messages, updates) run concurrently and are
awaited before the next page; no claim depends on their interleaving, so
the model serializes messages before updates within the page. -/
def reconLoop : List DiffResponse → Int → Int → List QItem → Nat → LoopResult
  | [], pts, date, pushed, invokes => ⟨.failed, pushed, invokes, pts, date⟩
  | r :: rest, pts, date, pushed, invokes =>
    match r with
    | .difference msgs upds spts sdate =>
      reconLoop rest spts sdate
        (pushed ++ msgs.map QItem.newMessage ++ upds.map QItem.rawUpdate) (invokes + 1)
    | .differenceSlice msgs upds spts sdate =>
      reconLoop rest spts sdate
        (pushed ++ msgs.map QItem.newMessage ++ upds.map QItem.rawUpdate) (invokes + 1)
    | .differenceEmpty d => ⟨.finished, pushed, invokes + 1, pts, d⟩
    | .differenceTooLong p => reconLoop rest p date pushed (invokes + 1)
    | .otherKind => ⟨.finished, pushed, invokes + 1, pts, date⟩
    | .ioFailure => ⟨.failed, pushed, invokes + 1, pts, date⟩
    | .cancelledInvoke => ⟨.failed, pushed, invokes + 1, pts, date⟩

/-- The persisted SESSION document for this bot (keyed by the sha256 of the
bot token), restricted to the fields dispatch_missed_events touches; a
field holds none when absent from the document. -/
structure SessionRecord where
  pts : Option Int
  date : Option Int
  qts : Option Int
  seq : Option Int
deriving DecidableEq, Repr

/-- Observable result of dispatch_missed_events: the session document
afterwards (none when it did not exist), the queue pushes, and the number
of GetDifference requests made. -/
structure MissedResult where
  record : Option SessionRecord
  pushed : List QItem
  invokes : Nat
deriving DecidableEq, Repr

/-- Python truthiness test not pts / not date on an optional integer
field: true when the field is absent or zero. -/
def isFalsy : Option Int → Bool
  | none => true
  | some v => v == 0

/-- dispatch_missed_events: returns untouched unless loaded and not yet
running; returns untouched when the session document is absent or its pts
or date field is falsy; otherwise runs the reconciliation loop and, in the
finally block, unsets the pts, date, qts and seq fields of the document
(the document itself remains) whatever the loop's exit was. -/
def dispatch_missed_events (loaded running : Bool) (record : Option SessionRecord)
    (script : List DiffResponse) : MissedResult :=
  if !loaded || running then ⟨record, [], 0⟩
  else
    match record with
    | none => ⟨none, [], 0⟩
    | some data =>
      if isFalsy data.pts || isFalsy data.date then ⟨some data, [], 0⟩
      else
        let r := reconLoop script (data.pts.getD 0) (data.date.getD 0) [] 0
        ⟨some ⟨none, none, none, none⟩, r.pushed, r.invokes⟩

/-- Invariant of the registry map: no event name maps to an empty
sequence. -/
abbrev NoEmpty (reg : Registry) : Prop := ∀ p ∈ reg, p.2 ≠ []

/-- Invariant of the registry map: keys are unique (Python dict). -/
abbrev KeysNodup (reg : Registry) : Prop := (reg.map Prod.fst).Nodup

/-- Stable ordering target: ascending priority, ties broken by the
callback handle, which regSeq assigns as the registration sequence
number. -/
def StableLt (a b : Listener) : Prop :=
  a.priority < b.priority ∨ (a.priority = b.priority ∧ a.func < b.func)

/-- A sequence of register_listener calls for one event name, the k-th
call (counting from the starting index) registering callback handle k with
the k-th priority and no filter. -/
def regSeq (e : String) (plug : Nat) : List Int → Nat → Registry → Registry
  | [], _, reg => reg
  | p :: rest, k, reg => regSeq e plug rest (k + 1) (register_listener reg plug e k p none)

/-- The listeners such a sequence of calls constructs, in registration
order. -/
def mkListeners (e : String) (plug : Nat) : List Int → Nat → List Listener
  | [], _ => []
  | p :: rest, k => ⟨e, k, plug, p, none⟩ :: mkListeners e plug rest (k + 1)

/-- The event's sequence after such calls, expressed directly as iterated
ordered inserts. -/
def insortAll (e : String) (plug : Nat) : List Int → Nat → List Listener → List Listener
  | [], _, l => l
  | p :: rest, k, l => insortAll e plug rest (k + 1) (insort ⟨e, k, plug, p, none⟩ l)

/-- Concrete registry for the unregister_listeners demonstration: plugin 1
owns two adjacent listeners of the event message. -/
def regC4 : Registry :=
  register_listener (register_listener [] 1 "message" 0 100 none) 1 "message" 1 100 none

/-- Concrete filter environment: every filter passes and leaves the
payload untouched. -/
def fenvId : FEnv := fun _ a => (true, a)

/-- Concrete filter environment: every filter passes but its payload ends
up with no matches attribute set. -/
def fenvTrueNone : FEnv := fun _ _ => (true, Arg.other 0)

/-- Concrete global pool with two running tasks created by two different
dispatch calls (ghost callId 0 and 1) of the same event name. -/
def poolC1 : List ATask :=
  [⟨0, "message", 0, .stopProp, .running⟩, ⟨1, "message", 1, .ok, .running⟩]

/-- Concrete pool for the amended cancellation characterization: a
completing stop-raising task (tid 0) next to a running task of the same
name from another call, a running task of a different name, and an
already-completed task of the same name. -/
def poolC1w : List ATask :=
  [⟨0, "message", 0, .stopProp, .running⟩, ⟨1, "message", 1, .ok, .running⟩,
   ⟨2, "started", 0, .ok, .running⟩, ⟨3, "message", 0, .ok, .doneOk⟩]

/-- Concrete registry for the failure-isolation scenario: two filterless
listeners (callbacks 0 and 1, plugin 0) on the event message. -/
def regC5 : Registry :=
  register_listener (register_listener [] 0 "message" 0 100 none) 0 "message" 1 100 none

/-- The two-listener message dispatch of the failure-isolation scenario,
run with wait=true under a given completion order: listener 0's body
raises the generic error e, listener 1's returns normally. -/
def runC5 (fenv : FEnv) (e : Nat) (order : List Nat) : RunState × Except String Unit :=
  dispatchRunWait fenv regC5 "message" [Arg.message none 0] 7
    (fun f => if f == 0 then Outcome.err e else Outcome.ok) order

end Anjani

namespace Anjani

/-! Registry lemmas. -/

/-- Storing a key then looking it up yields the stored value. -/
theorem lookup_setEvent (reg : Registry) (e : String) (l : List Listener) :
    lookupEvent (setEvent reg e l) e = some l := by
  induction reg with
  | nil => simp [setEvent, lookupEvent]
  | cons p ps ih =>
    by_cases h : p.1 == e
    · simp [setEvent, h, lookupEvent]
    · simp [setEvent, h, lookupEvent, ih]

/-- A key that occurs nowhere in the map looks up to none. -/
theorem lookup_eq_none_of_not_mem (reg : Registry) (e : String)
    (h : e ∉ reg.map Prod.fst) : lookupEvent reg e = none := by
  induction reg with
  | nil => simp [lookupEvent]
  | cons p ps ih =>
    simp only [List.map_cons, List.mem_cons] at h
    push_neg at h
    have hne : (p.1 == e) = false := by
      simp [BEq.beq]
      exact fun hh => h.1 hh.symm
    simp [lookupEvent, hne, ih h.2]

/-- Deleting a key from a map with unique keys makes it absent. -/
theorem lookup_erase_self (reg : Registry) (e : String) (h : KeysNodup reg) :
    lookupEvent (eraseEvent reg e) e = none := by
  induction reg with
  | nil => simp [eraseEvent, lookupEvent]
  | cons p ps ih =>
    simp only [KeysNodup, List.map_cons, List.nodup_cons] at h
    by_cases hp : p.1 == e
    · simp only [eraseEvent, if_pos hp]
      apply lookup_eq_none_of_not_mem
      have : p.1 = e := by simpa using hp
      exact this ▸ h.1
    · simp only [eraseEvent, if_neg hp, lookupEvent]
      exact ih h.2

/-- Appending a fresh key makes it findable. -/
theorem lookup_append (reg : Registry) (e : String) (l : List Listener)
    (h : lookupEvent reg e = none) :
    lookupEvent (reg ++ [(e, l)]) e = some l := by
  induction reg with
  | nil => simp [lookupEvent]
  | cons p ps ih =>
    by_cases hp : p.1 == e
    · simp [lookupEvent, hp] at h
    · simp only [lookupEvent, if_neg hp] at h
      simp only [List.cons_append, lookupEvent, if_neg hp]
      exact ih h

/-- Members of the map after a store are the new binding or old members. -/
theorem mem_setEvent (reg : Registry) (e : String) (l : List Listener)
    (q : String × List Listener) (h : q ∈ setEvent reg e l) :
    q = (e, l) ∨ q ∈ reg := by
  induction reg with
  | nil => simpa [setEvent] using h
  | cons p ps ih =>
    by_cases hp : p.1 == e
    · simp only [setEvent, if_pos hp, List.mem_cons] at h
      rcases h with h | h
      · exact Or.inl h
      · exact Or.inr (List.mem_cons_of_mem _ h)
    · simp only [setEvent, if_neg hp, List.mem_cons] at h
      rcases h with h | h
      · exact Or.inr (h ▸ List.mem_cons_self p ps)
      · rcases ih h with h2 | h2
        · exact Or.inl h2
        · exact Or.inr (List.mem_cons_of_mem _ h2)

/-- Members after a deletion were members before. -/
theorem mem_eraseEvent (reg : Registry) (e : String)
    (q : String × List Listener) (h : q ∈ eraseEvent reg e) : q ∈ reg := by
  induction reg with
  | nil => simp [eraseEvent] at h
  | cons p ps ih =>
    by_cases hp : p.1 == e
    · simp only [eraseEvent, if_pos hp] at h
      exact List.mem_cons_of_mem _ h
    · simp only [eraseEvent, if_neg hp, List.mem_cons] at h
      rcases h with h | h
      · exact h ▸ List.mem_cons_self p ps
      · exact List.mem_cons_of_mem _ (ih h)

/-- An ordered insert never produces the empty sequence. -/
theorem insort_ne_nil (x : Listener) (l : List Listener) : insort x l ≠ [] := by
  cases l with
  | nil => simp [insort]
  | cons y ys =>
    by_cases h : Listener.lt x y
    · simp [insort, h]
    · simp [insort, h]

/-- register_listener preserves the no-empty-sequence invariant. -/
theorem noEmpty_register (reg : Registry) (plug : Nat) (e : String) (f : Nat)
    (pr : Int) (fl : Option FilterId) (h : NoEmpty reg) :
    NoEmpty (register_listener reg plug e f pr fl) := by
  unfold register_listener
  cases hl : lookupEvent reg e with
  | none =>
    intro q hq
    rcases List.mem_append.mp hq with hq | hq
    · exact h q hq
    · simp only [List.mem_singleton] at hq
      subst hq
      simp
  | some l =>
    intro q hq
    rcases mem_setEvent _ _ _ _ hq with hq | hq
    · subst hq
      exact insort_ne_nil _ _
    · exact h q hq

/-- unregister_listener preserves the no-empty-sequence invariant. -/
theorem noEmpty_unregister (reg : Registry) (x : Listener) (reg2 : Registry)
    (h : NoEmpty reg) (h2 : unregister_listener reg x = some reg2) : NoEmpty reg2 := by
  unfold unregister_listener at h2
  split at h2
  · cases h2
  · split at h2
    · cases h2
    · rename_i l hl l2 hr
      obtain rfl := Option.some.inj h2
      by_cases he : l2.isEmpty
      · rw [if_pos he]
        intro q hq
        exact h q (mem_eraseEvent _ _ _ hq)
      · rw [if_neg he]
        intro q hq
        rcases mem_setEvent _ _ _ _ hq with hq | hq
        · subst hq
          intro hnil
          simp only at hnil
          exact he (by simp [hnil])
        · exact h q hq

/-- The inner loop of unregister_listeners preserves the invariant. -/
theorem noEmpty_scanEvent (plug : Nat) : ∀ (fuel : Nat) (reg : Registry)
    (live : List Listener) (i : Nat) (reg2 : Registry), NoEmpty reg →
    scanEvent plug fuel reg live i = some reg2 → NoEmpty reg2 := by
  intro fuel
  induction fuel with
  | zero =>
    intro reg live i reg2 h h2
    simp only [scanEvent] at h2
    obtain rfl := Option.some.inj h2
    exact h
  | succ n ih =>
    intro reg live i reg2 h h2
    simp only [scanEvent] at h2
    split at h2
    · obtain rfl := Option.some.inj h2
      exact h
    · rename_i x hx
      split at h2
      · split at h2
        · cases h2
        · rename_i regb hu
          exact ih regb _ _ reg2 (noEmpty_unregister reg x regb h hu) h2
      · exact ih reg live (i + 1) reg2 h h2

/-- The outer loop of unregister_listeners preserves the invariant. -/
theorem noEmpty_unregLoop (plug : Nat) : ∀ (snap : List (List Listener))
    (reg reg2 : Registry), NoEmpty reg →
    unregLoop plug snap reg = some reg2 → NoEmpty reg2 := by
  intro snap
  induction snap with
  | nil =>
    intro reg reg2 h h2
    simp only [unregLoop] at h2
    obtain rfl := Option.some.inj h2
    exact h
  | cons live rest ih =>
    intro reg reg2 h h2
    simp only [unregLoop] at h2
    cases hs : scanEvent plug (live.length + 1) reg live 0 with
    | none => rw [hs] at h2; cases h2
    | some regb =>
      rw [hs] at h2
      exact ih regb reg2 (noEmpty_scanEvent plug _ reg live 0 regb h hs) h2

/-- C8: the registry map never maps an event name to an empty sequence:
once unregister_listener removes the last listener of an event (the
sequence held exactly that record) the event key is absent from a
unique-key registry, and register_listener, unregister_listener and
unregister_listeners all preserve the no-empty-sequence invariant. -/
theorem claim_C8 :
    (∀ (reg : Registry) (x : Listener) (reg2 : Registry), KeysNodup reg →
        lookupEvent reg x.event = some [x] → unregister_listener reg x = some reg2 →
        lookupEvent reg2 x.event = none)
    ∧ (∀ (reg : Registry) (plug : Nat) (e : String) (f : Nat) (pr : Int)
        (fl : Option FilterId), NoEmpty reg →
        NoEmpty (register_listener reg plug e f pr fl))
    ∧ (∀ (reg : Registry) (x : Listener) (reg2 : Registry), NoEmpty reg →
        unregister_listener reg x = some reg2 → NoEmpty reg2)
    ∧ (∀ (reg : Registry) (plug : Nat) (reg2 : Registry), NoEmpty reg →
        unregister_listeners plug reg = some reg2 → NoEmpty reg2) := by
  refine ⟨?_, noEmpty_register, noEmpty_unregister, ?_⟩
  · intro reg x reg2 hnd hl h2
    unfold unregister_listener at h2
    split at h2
    · cases h2
    · rename_i l hl2
      rw [hl] at hl2
      obtain rfl := Option.some.inj hl2
      simp only [removeFirst, if_pos rfl, List.isEmpty_nil, if_true] at h2
      obtain rfl := Option.some.inj h2
      exact lookup_erase_self reg x.event hnd
  · intro reg plug reg2 h h2
    exact noEmpty_unregLoop plug _ reg reg2 h h2

/-- Witness for C8 at concrete inputs: a one-listener registry whose key
vanishes after removing that listener, and invariant preservation at small
concrete registries. -/
theorem claim_C8_witness :
    lookupEvent ([] : Registry) "e" = none
    ∧ NoEmpty (register_listener [] 0 "e" 0 100 none)
    ∧ NoEmpty ([("e", [⟨"e", 1, 0, 100, none⟩])] : Registry)
    ∧ NoEmpty ([] : Registry) := by
  refine ⟨?_, ?_, ?_, ?_⟩
  · exact claim_C8.1 [("e", [⟨"e", 0, 0, 100, none⟩])] ⟨"e", 0, 0, 100, none⟩ []
      (by decide) (by decide) (by decide)
  · exact claim_C8.2.1 [] 0 "e" 0 100 none (by decide)
  · exact claim_C8.2.2.1 [("e", [⟨"e", 0, 0, 100, none⟩, ⟨"e", 1, 0, 100, none⟩])]
      ⟨"e", 0, 0, 100, none⟩ [("e", [⟨"e", 1, 0, 100, none⟩])] (by decide) (by decide)
  · exact claim_C8.2.2.2 [("e", [⟨"e", 0, 0, 100, none⟩])] 0 [] (by decide) (by decide)

/-- C4 (demonstration of the divergence): plugin 1 owns the two adjacent
listeners of regC4 for event message, yet after unregister_listeners for
plugin 1 the second of them is still registered: the iterator of the inner
loop advances past it when the removal of the first shifts the list. -/
theorem claim_C4 :
    unregister_listeners 1 regC4 = some [("message", [⟨"message", 1, 1, 100, none⟩])]
    ∧ (⟨"message", 1, 1, 100, none⟩ : Listener).plugin = 1 := by
  constructor
  · decide
  · rfl

/-! Ordering lemmas for the registered listener sequences. -/

/-- Ordered insertion is a permutation of consing. -/
theorem insort_perm (x : Listener) : ∀ l : List Listener, (insort x l).Perm (x :: l) := by
  intro l
  induction l with
  | nil => simp [insort]
  | cons y ys ih =>
    by_cases h : Listener.lt x y
    · simp [insort, h]
    · simp only [insort, if_neg h]
      exact (ih.cons y).trans (List.Perm.swap x y ys)

/-- StableLt entails non-strict priority order. -/
theorem StableLt.le_priority {a b : Listener} (h : StableLt a b) :
    a.priority ≤ b.priority := by
  rcases h with h | h
  · exact le_of_lt h
  · exact le_of_eq h.1

/-- Ordered insertion of an element with a fresh, maximal callback handle
preserves stable sortedness. -/
theorem insort_pairwise (x : Listener) :
    ∀ l : List Listener, l.Pairwise StableLt → (∀ y ∈ l, y.func < x.func) →
    (insort x l).Pairwise StableLt := by
  intro l
  induction l with
  | nil => intro _ _; simp [insort]
  | cons y ys ih =>
    intro hp hf
    rw [List.pairwise_cons] at hp
    obtain ⟨hy, hys⟩ := hp
    by_cases hlt : Listener.lt x y
    · simp only [insort, if_pos hlt]
      have hxy : x.priority < y.priority := by simpa [Listener.lt] using hlt
      refine List.pairwise_cons.mpr ⟨?_, List.pairwise_cons.mpr ⟨hy, hys⟩⟩
      intro z hz
      rcases List.mem_cons.mp hz with rfl | hz
      · exact Or.inl hxy
      · exact Or.inl (lt_of_lt_of_le hxy (hy z hz).le_priority)
    · simp only [insort, if_neg hlt]
      have hyx : y.priority ≤ x.priority := by
        have : ¬ x.priority < y.priority := by simpa [Listener.lt] using hlt
        exact le_of_not_lt this
      refine List.pairwise_cons.mpr
        ⟨?_, ih hys (fun z hz => hf z (List.mem_cons_of_mem _ hz))⟩
      intro z hz
      rcases List.mem_cons.mp ((insort_perm x ys).mem_iff.mp hz) with rfl | hz2
      · rcases lt_or_eq_of_le hyx with h1 | h1
        · exact Or.inl h1
        · exact Or.inr ⟨h1, hf y (List.mem_cons_self y ys)⟩
      · exact hy z hz2

/-- Iterated ordered insertion is a permutation of appending the
registration sequence. -/
theorem insortAll_perm (e : String) (plug : Nat) :
    ∀ (rs : List Int) (k : Nat) (l : List Listener),
    (insortAll e plug rs k l).Perm (l ++ mkListeners e plug rs k) := by
  intro rs
  induction rs with
  | nil => intro k l; simp [insortAll, mkListeners]
  | cons p rest ih =>
    intro k l
    simp only [insortAll, mkListeners]
    refine (ih (k + 1) _).trans ?_
    refine (List.Perm.append_right _ (insort_perm _ l)).trans ?_
    simp only [List.cons_append]
    exact List.perm_middle.symm

/-- Iterated ordered insertion with increasing callback handles preserves
stable sortedness. -/
theorem insortAll_pairwise (e : String) (plug : Nat) :
    ∀ (rs : List Int) (k : Nat) (l : List Listener),
    l.Pairwise StableLt → (∀ y ∈ l, y.func < k) →
    (insortAll e plug rs k l).Pairwise StableLt := by
  intro rs
  induction rs with
  | nil => intro k l hp _; simpa [insortAll] using hp
  | cons p rest ih =>
    intro k l hp hf
    simp only [insortAll]
    refine ih (k + 1) _ (insort_pairwise _ l hp ?_) ?_
    · intro y hy
      exact hf y hy
    · intro y hy
      rcases List.mem_cons.mp ((insort_perm _ l).mem_iff.mp hy) with rfl | hy2
      · exact Nat.lt_succ_self k
      · exact Nat.lt_succ_of_lt (hf y hy2)

/-- register_listener without a filter on an event already present
ordered-inserts into its sequence. -/
theorem register_lookup_some (reg : Registry) (plug : Nat) (e : String) (f : Nat)
    (pr : Int) (l : List Listener) (h : lookupEvent reg e = some l) :
    register_listener reg plug e f pr none =
      setEvent reg e (insort ⟨e, f, plug, pr, none⟩ l) := by
  unfold register_listener
  rw [h]
  simp [ite_self]

/-- register_listener without a filter on an absent event creates a
singleton sequence. -/
theorem register_lookup_none (reg : Registry) (plug : Nat) (e : String) (f : Nat)
    (pr : Int) (h : lookupEvent reg e = none) :
    register_listener reg plug e f pr none = reg ++ [(e, [⟨e, f, plug, pr, none⟩])] := by
  unfold register_listener
  rw [h]
  simp [ite_self]

/-- The registry after a registration sequence for one event holds, under
that event, the iterated ordered insert of the registered listeners. -/
theorem regSeq_lookup (e : String) (plug : Nat) :
    ∀ (rs : List Int) (k : Nat) (reg : Registry) (l : List Listener),
    lookupEvent reg e = some l →
    lookupEvent (regSeq e plug rs k reg) e = some (insortAll e plug rs k l) := by
  intro rs
  induction rs with
  | nil =>
    intro k reg l h
    simpa [regSeq, insortAll] using h
  | cons p rest ih =>
    intro k reg l h
    simp only [regSeq, insortAll]
    apply ih
    rw [register_lookup_some reg plug e k p l h]
    exact lookup_setEvent reg e _

/-- C6: after any sequence of register_listener calls for one event name
(the k-th call registering callback handle k), the resulting sequence for
that event is stably sorted — ascending priority, equal priorities in
registration order — and is a permutation of the registered listeners, so
each ordered insert preserved the invariant. -/
theorem claim_C6 : ∀ (e : String) (plug : Nat) (rs : List Int),
    ((lookupEvent (regSeq e plug rs 0 []) e).getD []).Pairwise StableLt
    ∧ ((lookupEvent (regSeq e plug rs 0 []) e).getD []).Perm (mkListeners e plug rs 0) := by
  intro e plug rs
  cases rs with
  | nil => simp [regSeq, lookupEvent, mkListeners]
  | cons p rest =>
    have h0 : lookupEvent (register_listener [] plug e 0 p none) e
        = some [⟨e, 0, plug, p, none⟩] := by
      rw [register_lookup_none [] plug e 0 p (by simp [lookupEvent])]
      simp [lookupEvent]
    have h1 := regSeq_lookup e plug rest 1 _ _ h0
    have hred : regSeq e plug (p :: rest) 0 []
        = regSeq e plug rest 1 (register_listener [] plug e 0 p none) := rfl
    constructor
    · rw [hred, h1]
      simp only [Option.getD_some]
      refine insortAll_pairwise e plug rest 1 _ (by simp) ?_
      intro y hy
      rcases List.mem_singleton.mp hy with rfl
      exact Nat.zero_lt_one
    · rw [hred, h1]
      simp only [Option.getD_some]
      refine (insortAll_perm e plug rest 1 _).trans ?_
      simp [mkListeners]

/-! Filter-evaluation lemmas for the dispatch loop. -/

/-- With the match flag set and a callback_query or inline_query event,
the inner arg loop touches nothing: no filter evaluation, no scheduling,
args and flag unchanged. -/
theorem filterScan_skip (fenv : FEnv) (event : String) (fid : FilterId) (func : Nat)
    (hev : event = "callback_query" ∨ event = "inline_query") :
    ∀ args : List Arg, filterScan fenv event fid func args true = ⟨args, true, [], false⟩ := by
  intro args
  induction args with
  | nil => rfl
  | cons a rest ih =>
    have hguard : (true && (event == "callback_query" || event == "inline_query")) = true := by
      rcases hev with rfl | rfl <;> decide
    by_cases hr : a.isRich
    · simp [filterScan, hr, hguard, ih]
    · simp [filterScan, hr, ih]

/-- For any other event name the filter is evaluated whenever some arg is
a rich event, whatever the match flag holds. -/
theorem filterScan_evals_ne (fenv : FEnv) (event : String) (fid : FilterId) (func : Nat)
    (hev : ¬(event = "callback_query" ∨ event = "inline_query")) :
    ∀ (args : List Arg) (mf : Bool), (∃ a ∈ args, a.isRich) →
    (filterScan fenv event fid func args mf).evals ≠ [] := by
  intro args
  induction args with
  | nil =>
    intro mf h
    simp at h
  | cons a rest ih =>
    intro mf h
    push_neg at hev
    by_cases hr : a.isRich
    · have h1 : (event == "callback_query") = false := by
        simpa using hev.1
      have h2 : (event == "inline_query") = false := by
        simpa using hev.2
      have hguard : (mf && (event == "callback_query" || event == "inline_query")) = false := by
        simp [h1, h2]
      by_cases hp : (fenv fid a).1
      · simp [filterScan, hr, hguard, hp]
      · simp [filterScan, hr, hguard, hp]
    · obtain ⟨b, hb, hrb⟩ := h
      rcases List.mem_cons.mp hb with rfl | hb2
      · exact absurd hrb hr
      · simp only [filterScan, hr, Bool.false_eq_true, if_neg, if_false]
        exact ih mf ⟨b, hb2, hrb⟩

/-- C3: within one dispatch call, once the call's match flag is set, the
filter of a later filtered listener is skipped (not evaluated, listener
not scheduled, state untouched) exactly when the dispatched event name is
callback_query or inline_query; for the event name message the later
filter is still evaluated; and a listener without a filter is always
scheduled, whatever the flag holds. -/
theorem claim_C3 :
    (∀ (fenv : FEnv) (event : String) (fid : FilterId) (func : Nat) (args : List Arg),
      (∃ a ∈ args, a.isRich) →
      (((filterScan fenv event fid func args true).evals = []
          ∧ (filterScan fenv event fid func args true).sched = false)
        ↔ (event = "callback_query" ∨ event = "inline_query")))
    ∧ (∀ (fenv : FEnv) (fid : FilterId) (func : Nat) (args : List Arg),
      (∃ a ∈ args, a.isRich) →
      (filterScan fenv "message" fid func args true).evals ≠ [])
    ∧ (∀ (fenv : FEnv) (event : String) (st : DispatchState) (l : Listener),
      l.filters = none →
      (stepListener fenv event st l).scheduled = st.scheduled ++ [l.func]) := by
  refine ⟨?_, ?_, ?_⟩
  · intro fenv event fid func args hrich
    constructor
    · intro hskip
      by_contra hev
      exact filterScan_evals_ne fenv event fid func hev args true hrich hskip.1
    · intro hev
      rw [filterScan_skip fenv event fid func hev args]
      exact ⟨rfl, rfl⟩
  · intro fenv fid func args hrich
    refine filterScan_evals_ne fenv "message" fid func ?_ args true hrich
    rintro (h | h) <;> simp at h
  · intro fenv event st l hfl
    simp [stepListener, hfl]

/-- Witness for C3 at concrete inputs: a single rich callback_query
payload with a passing filter environment, an equally concrete message
dispatch, and a filterless listener. -/
theorem claim_C3_witness :
    (((filterScan fenvId "callback_query" 0 0 [Arg.callbackQuery none 0] true).evals = []
        ∧ (filterScan fenvId "callback_query" 0 0 [Arg.callbackQuery none 0] true).sched = false)
      ↔ ("callback_query" = "callback_query" ∨ "callback_query" = "inline_query"))
    ∧ (filterScan fenvId "message" 0 0 [Arg.message none 0] true).evals ≠ []
    ∧ (stepListener fenvId "started" ⟨[], false, [], []⟩ ⟨"started", 4, 0, 100, none⟩).scheduled
        = [] ++ [4] := by
  refine ⟨?_, ?_, ?_⟩
  · exact claim_C3.1 fenvId "callback_query" 0 0 [Arg.callbackQuery none 0]
      ⟨Arg.callbackQuery none 0, by simp, rfl⟩
  · exact claim_C3.2.1 fenvId 0 0 [Arg.message none 0] ⟨Arg.message none 0, by simp, rfl⟩
  · exact claim_C3.2.2 fenvId "started" ⟨[], false, [], []⟩ ⟨"started", 4, 0, 100, none⟩ rfl

/-- When no evaluation that returns true leaves a non-None matches
attribute on the payload, the inner arg loop never sets the match flag
from unset. -/
theorem filterScan_mf_false (fenv : FEnv)
    (hf : ∀ (f : FilterId) (a : Arg), (fenv f a).1 = true → ((fenv f a).2).matchAttr = none)
    (event : String) (fid : FilterId) (func : Nat) :
    ∀ args : List Arg, (filterScan fenv event fid func args false).mf = false := by
  intro args
  induction args with
  | nil => rfl
  | cons a rest ih =>
    by_cases hr : a.isRich
    · by_cases hp : (fenv fid a).1
      · simp [filterScan, hr, hp, hf fid a hp]
      · simp [filterScan, hr, hp, ih]
    · simp [filterScan, hr, ih]

/-- The listener loop keeps the match flag unset under the same
hypothesis. -/
theorem dispatchLoop_mf_false (fenv : FEnv)
    (hf : ∀ (f : FilterId) (a : Arg), (fenv f a).1 = true → ((fenv f a).2).matchAttr = none)
    (event : String) :
    ∀ (ls : List Listener) (st : DispatchState), st.mf = false →
    (dispatchLoop fenv event ls st).mf = false := by
  intro ls
  induction ls with
  | nil =>
    intro st h
    simpa [dispatchLoop] using h
  | cons l rest ih =>
    intro st h
    simp only [dispatchLoop]
    apply ih
    cases hfl : l.filters with
    | none => simpa [stepListener, hfl] using h
    | some fid =>
      simp only [stepListener, hfl]
      rw [h]
      exact filterScan_mf_false fenv hf event fid l.func st.args

/-- C10: the first-match flag is set only by an evaluation that returned
true and left the payload's matches attribute non-None (first conjunct:
under a filter environment in which no passing evaluation leaves matches
set, the flag stays unset through the whole listener loop); consequently a
filter returning true with matches left None does not suppress the next
listener's filter evaluation in the same callback_query dispatch call
(second conjunct: both filters of a two-listener call are evaluated). -/
theorem claim_C10 :
    (∀ fenv : FEnv,
      (∀ (f : FilterId) (a : Arg), (fenv f a).1 = true → ((fenv f a).2).matchAttr = none) →
      ∀ (event : String) (ls : List Listener) (args : List Arg),
      (dispatchLoop fenv event ls ⟨args, false, [], []⟩).mf = false)
    ∧ (∀ (fenv : FEnv) (fid1 fid2 f1 f2 : Nat) (a a2 : Arg),
      a.isRich = true → fenv fid1 a = (true, a2) → a2.matchAttr = none → a2.isRich = true →
      (dispatchLoop fenv "callback_query"
        [⟨"callback_query", f1, 0, 100, some fid1⟩, ⟨"callback_query", f2, 0, 100, some fid2⟩]
        ⟨[a], false, [], []⟩).evals = [f1, f2]) := by
  constructor
  · intro fenv hf event ls args
    exact dispatchLoop_mf_false fenv hf event ls ⟨args, false, [], []⟩ rfl
  · intro fenv fid1 fid2 f1 f2 a a2 hr h1 hm hr2
    have step1 : filterScan fenv "callback_query" fid1 f1 [a] false = ⟨[a2], false, [f1], true⟩ := by
      simp [filterScan, hr, h1, hm]
    have step2 : (filterScan fenv "callback_query" fid2 f2 [a2] false).evals = [f2] := by
      by_cases hp : (fenv fid2 a2).1
      · simp [filterScan, hr2, hp]
      · simp [filterScan, hr2, hp]
    have e1 : stepListener fenv "callback_query" ⟨[a], false, [], []⟩
        ⟨"callback_query", f1, 0, 100, some fid1⟩ = ⟨[a2], false, [f1], [f1]⟩ := by
      simp [stepListener, step1]
    have e2 : (stepListener fenv "callback_query" ⟨[a2], false, [f1], [f1]⟩
        ⟨"callback_query", f2, 0, 100, some fid2⟩).evals = [f1, f2] := by
      simp [stepListener, step2]
    simp only [dispatchLoop, e1]
    exact e2

/-- Witness for C10 at concrete inputs: an environment whose filters
always pass but never set matches, and an identity environment over a
callback_query payload without matches. -/
theorem claim_C10_witness :
    (dispatchLoop fenvTrueNone "callback_query"
        [⟨"callback_query", 0, 0, 100, some 0⟩] ⟨[Arg.callbackQuery none 5], false, [], []⟩).mf
      = false
    ∧ (dispatchLoop fenvId "callback_query"
        [⟨"callback_query", 10, 0, 100, some 0⟩, ⟨"callback_query", 11, 0, 100, some 1⟩]
        ⟨[Arg.callbackQuery none 0], false, [], []⟩).evals = [10, 11] := by
  constructor
  · exact claim_C10.1 fenvTrueNone (fun f a _ => rfl) "callback_query"
      [⟨"callback_query", 0, 0, 100, some 0⟩] [Arg.callbackQuery none 5]
  · exact claim_C10.2 fenvId 0 1 10 11 (Arg.callbackQuery none 0) (Arg.callbackQuery none 0)
      rfl rfl rfl rfl

/-! Failure isolator: cancellation and error isolation. -/

/-- Cancelling a task that is not running leaves it unchanged. -/
theorem cancelTask_of_not_running (u : ATask) (h : u.status ≠ .running) :
    u.cancelTask = u := by
  unfold ATask.cancelTask
  split
  · rename_i hs
    exact absurd hs h
  · rfl

/-- C1 counterexample: the two running tasks of poolC1 stem from distinct
dispatch calls (ghost callId 0 and 1) of the same event name; when the
task of call 0 completes with StopPropagation, the isolator cancels the
task belonging to call 1, because the cancellation tag is the task name —
the event string — and not a call-scoped identity.  This refutes the
claim that a stop signal raised in one dispatch call never cancels a task
belonging to a concurrently running other call. -/
theorem claim_C1_counterexample :
    poolC1.map ATask.callId = [0, 1]
    ∧ (completeStep ⟨poolC1, 0, []⟩ 0).pool.find? (fun t => t.tid == 1)
        = some ⟨1, "message", 1, Outcome.ok, TStatus.cancelling⟩ := by
  constructor
  · rfl
  · rfl

/-- C1 as amended: when a task completes with the StopPropagation signal,
the isolator cancels exactly the still-running tasks whose task name
equals the completing task's name — the event string, across every
dispatch call sharing that event name — while every task with a different
name is left unchanged and a task no longer running is not changed
(cancellation of a completed task is a no-op). -/
theorem claim_C1_amended : ∀ (st : RunState) (tid : Nat) (t : ATask),
    st.pool.find? (fun u => u.tid == tid) = some t →
    t.status = .running → t.beh = .stopProp →
    ∀ u ∈ st.pool, u.tid ≠ tid →
      ((u.name = t.name ∧ u.status = .running →
          { u with status := TStatus.cancelling } ∈ (completeStep st tid).pool)
        ∧ (u.name ≠ t.name → u ∈ (completeStep st tid).pool)
        ∧ (u.status ≠ .running → u ∈ (completeStep st tid).pool)) := by
  intro st tid t hfind hrun hbeh u hu hneq
  have hpool : (completeStep st tid).pool
      = cancelByName (setStatus st.pool tid (doneOf t.beh)) t.name := by
    simp [completeStep, hfind, hrun, hbeh]
  have htid : (u.tid == tid) = false := by
    simpa using hneq
  have hmem : (fun v => if v.name == t.name then v.cancelTask else v)
      ((fun v => if v.tid == tid then { v with status := doneOf t.beh } else v) u)
      ∈ cancelByName (setStatus st.pool tid (doneOf t.beh)) t.name := by
    unfold cancelByName setStatus
    exact List.mem_map_of_mem _ (List.mem_map_of_mem _ hu)
  refine ⟨?_, ?_, ?_⟩
  · rintro ⟨hname, hrunu⟩
    have hval : (fun v => if v.name == t.name then v.cancelTask else v)
        ((fun v => if v.tid == tid then { v with status := doneOf t.beh } else v) u)
        = { u with status := TStatus.cancelling } := by
      simp only [htid, Bool.false_eq_true, if_neg, if_false]
      have hbn : (u.name == t.name) = true := by simpa using hname
      simp only [hbn, if_true]
      unfold ATask.cancelTask
      simp [hrunu]
    rw [hpool, ← hval]
    exact hmem
  · intro hname
    have hval : (fun v => if v.name == t.name then v.cancelTask else v)
        ((fun v => if v.tid == tid then { v with status := doneOf t.beh } else v) u)
        = u := by
      have hbn : (u.name == t.name) = false := by simpa using hname
      simp only [htid, Bool.false_eq_true, if_neg, if_false, hbn]
    rw [hpool, ← hval]
    exact hmem
  · intro hstat
    have hval : (fun v => if v.name == t.name then v.cancelTask else v)
        ((fun v => if v.tid == tid then { v with status := doneOf t.beh } else v) u)
        = u := by
      simp only [htid, Bool.false_eq_true, if_neg, if_false]
      by_cases hn : u.name == t.name
      · simp [hn, cancelTask_of_not_running u hstat]
      · simp [hn]
    rw [hpool, ← hval]
    exact hmem

/-- Witness for the amended C1 on poolC1w: the same-name running task of
the other call is cancelled, the differently named task survives
unchanged, and the already-completed same-name task is untouched. -/
theorem claim_C1_witness :
    (⟨1, "message", 1, Outcome.ok, TStatus.cancelling⟩ : ATask)
        ∈ (completeStep ⟨poolC1w, 0, []⟩ 0).pool
    ∧ (⟨2, "started", 0, Outcome.ok, TStatus.running⟩ : ATask)
        ∈ (completeStep ⟨poolC1w, 0, []⟩ 0).pool
    ∧ (⟨3, "message", 0, Outcome.ok, TStatus.doneOk⟩ : ATask)
        ∈ (completeStep ⟨poolC1w, 0, []⟩ 0).pool := by
  refine ⟨?_, ?_, ?_⟩
  · exact (claim_C1_amended ⟨poolC1w, 0, []⟩ 0 ⟨0, "message", 0, .stopProp, .running⟩
      (by decide) rfl rfl ⟨1, "message", 1, .ok, .running⟩ (by decide) (by decide)).1
      ⟨rfl, rfl⟩
  · exact (claim_C1_amended ⟨poolC1w, 0, []⟩ 0 ⟨0, "message", 0, .stopProp, .running⟩
      (by decide) rfl rfl ⟨2, "started", 0, .ok, .running⟩ (by decide) (by decide)).2.1
      (by decide)
  · exact (claim_C1_amended ⟨poolC1w, 0, []⟩ 0 ⟨0, "message", 0, .stopProp, .running⟩
      (by decide) rfl rfl ⟨3, "message", 0, .ok, .doneOk⟩ (by decide) (by decide)).2.2
      (by decide)

/-- C5: in a two-listener message dispatch with wait=true in which
listener 0's body raises a generic error and listener 1's returns
normally, under either completion order the sibling task finishes as
doneOk, its body ran to completion exactly once, and the composed
dispatch returns normally to its caller. -/
theorem claim_C5 : ∀ (fenv : FEnv) (e : Nat) (order : List Nat),
    (order = [0, 1] ∨ order = [1, 0]) →
    ((runC5 fenv e order).1.pool.find? (fun t => t.tid == 1)
        = some ⟨1, "message", 7, Outcome.ok, TStatus.doneOk⟩
      ∧ (runC5 fenv e order).1.completed.count 1 = 1
      ∧ (runC5 fenv e order).2 = Except.ok ()) := by
  intro fenv e order horder
  rcases horder with rfl | rfl
  · exact ⟨rfl, rfl, rfl⟩
  · exact ⟨rfl, rfl, rfl⟩

/-- Witness for C5 at a concrete error code and completion order. -/
theorem claim_C5_witness :
    (runC5 fenvId 3 [0, 1]).1.pool.find? (fun t => t.tid == 1)
        = some ⟨1, "message", 7, Outcome.ok, TStatus.doneOk⟩
    ∧ (runC5 fenvId 3 [0, 1]).1.completed.count 1 = 1
    ∧ (runC5 fenvId 3 [0, 1]).2 = Except.ok () :=
  claim_C5 fenvId 3 [0, 1] (Or.inl rfl)

/-! Reconciliation (dispatch_missed_events). -/

/-- C2: whenever dispatch_missed_events actually enters its
reconciliation loop (service loaded and not yet running, session record
present with truthy pts and date), the finally block unsets the pts,
date, qts and seq fields of the persisted record before the call
finishes, for EVERY upstream script — hence for every terminal outcome of
the loop: exhaustion by DifferenceEmpty, an unrecognized response kind,
transport I/O failure, or external cancellation — and regardless of how
much of the backlog was replayed. -/
theorem claim_C2 : ∀ (data : SessionRecord) (script : List DiffResponse),
    isFalsy data.pts = false → isFalsy data.date = false →
    (dispatch_missed_events true false (some data) script).record
      = some ⟨none, none, none, none⟩ := by
  intro data script h1 h2
  simp [dispatch_missed_events, h1, h2]

/-- Witness for C2: an interrupted run (transport failure on the second
page, after a replayed first page) still ends with the cursor fields
unset. -/
theorem claim_C2_witness :
    (dispatch_missed_events true false (some ⟨some 5, some 100, none, none⟩)
        [DiffResponse.difference [9] [8] 6 101, DiffResponse.ioFailure]).record
      = some ⟨none, none, none, none⟩ :=
  claim_C2 ⟨some 5, some 100, none, none⟩
    [DiffResponse.difference [9] [8] 6 101, DiffResponse.ioFailure] rfl rfl

/-- C7: a DifferenceTooLong response makes the loop adopt the response's
suggested pts, keep the date unchanged, and retry the next request at
once with nothing pushed to the ingress queue and no error exit (first
conjunct: one loop equation); on the spec's concrete scenario — cursor
(5, 100), upstream answering DifferenceTooLong(50) then
DifferenceEmpty(200) — the run makes exactly two requests, pushes
nothing, and ends with the cursor fields unset. -/
theorem claim_C7 :
    (∀ (script : List DiffResponse) (pts date p : Int) (pushed : List QItem) (invokes : Nat),
      reconLoop (DiffResponse.differenceTooLong p :: script) pts date pushed invokes
        = reconLoop script p date pushed (invokes + 1))
    ∧ dispatch_missed_events true false (some ⟨some 5, some 100, none, none⟩)
        [DiffResponse.differenceTooLong 50, DiffResponse.differenceEmpty 200]
        = ⟨some ⟨none, none, none, none⟩, [], 2⟩ := by
  constructor
  · intro script pts date p pushed invokes
    rfl
  · rfl

/-- C9: when the session record exists but its pts or date field is
absent or falsy (zero), dispatch_missed_events returns at once: no
GetDifference request is made, nothing is pushed to the ingress queue,
and the record is left exactly as it was. -/
theorem claim_C9 : ∀ (data : SessionRecord) (script : List DiffResponse),
    (isFalsy data.pts || isFalsy data.date) = true →
    dispatch_missed_events true false (some data) script = ⟨some data, [], 0⟩ := by
  intro data script h
  simp [dispatch_missed_events, h]

/-- Witness for C9: a record whose pts field holds the falsy value zero
is left untouched even against a responsive upstream. -/
theorem claim_C9_witness :
    dispatch_missed_events true false (some ⟨some 0, some 100, none, none⟩)
        [DiffResponse.differenceEmpty 1]
      = ⟨some ⟨some 0, some 100, none, none⟩, [], 0⟩ :=
  claim_C9 ⟨some 0, some 100, none, none⟩ [DiffResponse.differenceEmpty 1] rfl

end Anjani
